import Mathlib

/-!
Verification development for the oanda candle downloader (`downloader.py`).

The program downloads price candles from a remote HTTP API and writes them
to a CSV file.  The heart of the program is `download` (lines 194-260): it
first attempts a single bounded batch call; on a "too many candles" error it
switches to a pagination loop that repeatedly fetches `MAX_API_CANDLES`-sized
batches with `includeFirst=False`, advancing `from_time` to the last received
candle's timestamp, truncating at `to_time`, and printing a progress bar.

The embedding below models:
  * candles by their UNIX timestamp (plus volume) — the range logic of
    `download` only ever inspects the `time` field of a candle record;
  * the remote API as a function from requests to either a candle list or
    one of the three error conditions raised by `download_batch`
    (`MaxCountError`, `APIError`, `ConnectionError`); `download` in the
    source likewise receives the API object as a parameter;
  * the honest server `fetchOf data` serving a fixed, time-sorted candle
    history `data`: a `fromTime`+`count` request returns the first `count`
    candles strictly after `fromTime` (the window is open on the left,
    `includeFirst=False`), and a `fromTime`+`toTime` request returns the
    candles in the half-open window unless there are more than
    `MAX_API_CANDLES` of them, in which case it reports the
    "Maximum value for 'count' exceeded" error;
  * the pagination loop as structural recursion on a fuel parameter
    (the Python `while True` loop has no syntactic bound); `none` means the
    fuel ran out before the loop finished;
  * the e time-string handling (`time_crop_fraction`, `time_to_unix`,
    lines 44-77) as executable parsers over `List Char`, with naive
    datetimes interpreted in UTC (the reference behaviour when the process
    runs with a UTC local timezone, which is what the spec's example
    values assume);
  * the top level (`__main__`, lines 294-312) as `mainModel`, recording
    whether the run wrote the CSV file, printed an error message and
    returned normally, or died with an exception that no handler catches.
-/

/-- One candle record.  `download` (lines 207-260) only reads the `'time'`
entry of the per-candle dictionaries built at lines 166-190; timestamps are
modelled directly as UNIX seconds (`time_to_unix` of the stored string).
`volume` stands in for the remaining payload fields. -/
structure Candle where
  time : Nat
  volume : Nat
deriving DecidableEq, Repr

/-- The parameters of one `api.instrument.candles` call that the range
logic varies: `fromTime` (always sent, with `includeFirst=False`), and
exactly one of `toTime` / `count` (lines 129-144). -/
structure Request where
  fromTime : Nat
  toTime : Option Nat
  count : Option Nat
deriving DecidableEq, Repr

/-- The error conditions `download_batch` can raise (lines 146-161):
`maxCount` models `MaxCountError`, `api` models `APIError` with the
server-provided message, `conn` models `ConnectionError` after five failed
attempts. -/
inductive FetchErr where
  | maxCount
  | api (msg : String)
  | conn
deriving DecidableEq, Repr

/-- `MAX_API_CANDLES = 5000` (line 21). -/
def MAX_API_CANDLES : Nat := 5000

/-- Strict ordering of candles by timestamp; a server history and every
Download Result are `List.Pairwise timeLt` (spec: "timestamps are unique
and monotonically increasing"). -/
def timeLt (a b : Candle) : Prop := a.time < b.time

/-- All candles of `data` strictly after time `t`: the response to an
open-left (`includeFirst=False`) unbounded window starting at `t`. -/
def afterRecords (data : List Candle) (t : Nat) : List Candle :=
  data.filter fun c => decide (t < c.time)

/-- All candles of `data` in the half-open window `(t, T]`: the response
to a `fromTime=t`, `toTime=T` request when it is small enough. -/
def spanRecords (data : List Candle) (t T : Nat) : List Candle :=
  data.filter fun c => decide (t < c.time ∧ c.time ≤ T)

/-- The honest server over the fixed candle history `data`.  A `count`
request returns the first `count` candles strictly after `fromTime`
(`includeFirst=False`), erroring if `count` exceeds the server maximum.
A `toTime` request returns the whole half-open window, erroring with
`maxCount` when the window holds more than `MAX_API_CANDLES` candles
(the condition that makes `download` switch to pagination). -/
def fetchOf (data : List Candle) (r : Request) : Except FetchErr (List Candle) :=
  match r.count with
  | some n =>
    if MAX_API_CANDLES < n then .error .maxCount
    else .ok ((afterRecords data r.fromTime).take n)
  | none =>
    match r.toTime with
    | some T =>
      if MAX_API_CANDLES < (spanRecords data r.fromTime T).length then .error .maxCount
      else .ok (spanRecords data r.fromTime T)
    | none =>
      if MAX_API_CANDLES < (afterRecords data r.fromTime).length then .error .maxCount
      else .ok (afterRecords data r.fromTime)

/-- Map over the success payload of a batch result, leaving errors alone
(used to prepend an appended batch to the rest of the accumulation). -/
def mapOk (f : List Candle → List Candle) : Except FetchErr (List Candle) → Except FetchErr (List Candle)
  | .ok l => .ok (f l)
  | .error e => .error e

/-- The observable outcome of one `download` run: the returned candle list
or the exception it raises, together with the list of batch requests it
issued and the arguments `(start, current, end)` of every `progress_bar`
call it makes (line 257 prints `progress_bar(from_time, last_candle_time,
to_time)`). -/
structure DlResult where
  outcome : Except FetchErr (List Candle)
  calls : List Request
  renders : List (Nat × Nat × Option Nat)

/-- The pagination loop of `download` (lines 217-258), fuelled.  Each
iteration issues a `count = MAX_API_CANDLES` request from `from_time`
(`cfg['to_time']` was set to `None` and `cfg['count']` to the maximum at
lines 213-214).  An empty batch ends the loop.  Otherwise, with
`last_candle_time` the last candle's timestamp: if `to_time` is set and
`last_candle_time ≤ to_time` the whole batch is appended and the loop
continues from `last_candle_time`; if it exceeds `to_time` only the prefix
of candles with timestamp `≤ to_time` is appended and the loop stops (no
progress print on that path, the `break` at line 241 precedes line 257);
with no `to_time` the batch is appended whole.  `effStart` models the
`is_first_batch` bookkeeping of lines 253-255: it is `none` until the
first fully processed batch fixes the progress-bar start to the first
received candle's timestamp.  Errors raised by a batch call propagate
(nothing inside the loop catches `MaxCountError`, `APIError` or
`ConnectionError`). -/
def paginate (fetch : Request → Except FetchErr (List Candle)) (to_time : Option Nat) :
    Option Nat → Nat → Nat → Option DlResult
  | _, _, 0 => none
  | effStart, from_time, fuel + 1 =>
    match fetch ⟨from_time, none, some MAX_API_CANDLES⟩ with
    | .error e => some ⟨.error e, [⟨from_time, none, some MAX_API_CANDLES⟩], []⟩
    | .ok [] => some ⟨.ok [], [⟨from_time, none, some MAX_API_CANDLES⟩], []⟩
    | .ok (b0 :: bs) =>
      let lastT := ((b0 :: bs).getLast (List.cons_ne_nil b0 bs)).time
      let t0 := effStart.getD b0.time
      match to_time with
      | some T =>
        if lastT ≤ T then
          match paginate fetch to_time (some t0) lastT fuel with
          | none => none
          | some r =>
            some ⟨mapOk ((b0 :: bs) ++ ·) r.outcome,
                  ⟨from_time, none, some MAX_API_CANDLES⟩ :: r.calls,
                  (t0, lastT, to_time) :: r.renders⟩
        else
          some ⟨.ok ((b0 :: bs).takeWhile fun c => decide (c.time ≤ T)),
                [⟨from_time, none, some MAX_API_CANDLES⟩], []⟩
      | none =>
        match paginate fetch to_time (some t0) lastT fuel with
        | none => none
        | some r =>
          some ⟨mapOk ((b0 :: bs) ++ ·) r.outcome,
                ⟨from_time, none, some MAX_API_CANDLES⟩ :: r.calls,
                (t0, lastT, to_time) :: r.renders⟩

/-- `download` (lines 194-260): first try the whole span in one batch
(`fromTime` plus `toTime`, no `count`).  On success return that call's
records unmodified; on `MaxCountError` switch to the pagination loop; any
other error propagates. -/
def download (fetch : Request → Except FetchErr (List Candle)) (from_time : Nat)
    (to_time : Option Nat) (fuel : Nat) : Option DlResult :=
  match fetch ⟨from_time, to_time, none⟩ with
  | .ok records => some ⟨.ok records, [⟨from_time, to_time, none⟩], []⟩
  | .error .maxCount =>
    match paginate fetch to_time none from_time fuel with
    | none => none
    | some r => some ⟨r.outcome, ⟨from_time, to_time, none⟩ :: r.calls, r.renders⟩
  | .error e => some ⟨.error e, [⟨from_time, to_time, none⟩], []⟩

/-- Spec-side definition, following the spec's words: "a single
hypothetical unbounded call's records restricted to
`[max(from_time, earliest_available), to_time]`" with the window open on
the left (the "boundary candle at `from_time` ... window is open-left"
clause).  The unbounded open-left fetch from `from_time` is every candle
strictly after `from_time` (which automatically starts at the earliest
available candle when `from_time` predates all data), and the restriction
keeps the candles with timestamp at most `to_time`. -/
def specPaginationRecords (data : List Candle) (from_time to_time : Nat) : List Candle :=
  (afterRecords data from_time).filter fun c => decide (c.time ≤ to_time)

/-- The timestamp of the first candle the paginated download receives
(head of the open-left unbounded window), defaulted; this is the value
lines 253-255 fix the progress-bar start to. -/
def headTimeD (data : List Candle) (t : Nat) : Nat :=
  (((afterRecords data t).head?).map Candle.time).getD 0

/-- The percentage computed by `progress_bar` (line 106):
`(current - start) / (end - start) * 100`.  The division is unguarded in
the source; `none` models the `ZeroDivisionError` raised when
`end = start`.  The remainder of `progress_bar` only turns this value
into a `#`/`.` bar string, so the percentage is the whole observable
numeric content. -/
def progressPercentage (start current stop : Int) : Option ℚ :=
  if stop = start then none
  else some (((current : ℚ) - (start : ℚ)) / ((stop : ℚ) - (start : ℚ)) * 100)

/-- The error messages printed by the handlers at lines 301-308.  The
connection message interpolates the configured hostname; the text is
abbreviated here since only which handler fires is at stake. -/
def errMsg : FetchErr → String
  | .conn => "Could not connect to the configured hostname."
  | .api m => "API error occured: " ++ m
  | .maxCount => ""

/-- Observable outcome of one run of `__main__` (lines 294-312):
`written` — the CSV file was written with these candles and "Done."
printed; `printed` — a handler caught the failure, printed one message
and the process returned normally (exit code 0); `unhandled` — the raised
exception matches none of the `except` clauses and propagates out of the
program (traceback, non-zero exit). -/
inductive MainResult where
  | written (candles : List Candle)
  | printed (msg : String)
  | unhandled
deriving DecidableEq, Repr

/-- Dispatch of the `download` outcome by the `try`/`except` ladder of
lines 294-310.  `ConnectionError` and `APIError` are caught and printed.
A `MaxCountError` escaping `download` (a recurrence during pagination)
matches no `except` clause.  An empty result reaches
`write` (lines 88-92), where `candles[0]` raises `IndexError`
("list index out of range"); the ladder only handles `KeyError`, which
does not catch `IndexError`, so that run also dies unhandled. -/
def mainStep (r : DlResult) : MainResult :=
  match r.outcome with
  | .error FetchErr.conn => .printed (errMsg FetchErr.conn)
  | .error (FetchErr.api m) => .printed (errMsg (FetchErr.api m))
  | .error FetchErr.maxCount => .unhandled
  | .ok [] => .unhandled
  | .ok (c :: cs) => .written (c :: cs)

/-- The top level: run `download` over the configured window (`__main__`
always supplies a concrete `to_time`, defaulting it to the current time
at lines 287-288) and dispatch its outcome.  `none` propagates fuel
exhaustion of the loop model. -/
def mainModel (fetch : Request → Except FetchErr (List Candle))
    (from_time to_time fuel : Nat) : Option MainResult :=
  (download fetch from_time (some to_time) fuel).map mainStep

/-- The candles a run left in the output file: `some` only when the run
completed a write. -/
def writtenCandles : MainResult → Option (List Candle)
  | .written cs => some cs
  | _ => none

/-- The retry scan of `download_batch` (lines 147-154): starting at
attempt index `i` with `k` attempts left, issue the call; a
connection-level failure (`none`) moves to the next attempt, a response
is returned at once (the `break`).  `none` overall models falling off the
loop into `raise ConnectionError`. -/
def retryFrom {R : Type} (attempt : Nat → Option R) : Nat → Nat → Option R
  | _, 0 => none
  | i, k + 1 =>
    match attempt i with
    | some r => some r
    | none => retryFrom attempt (i + 1) k

/-- `for i in range(0, 5)` around the API call: at most five attempts. -/
def retry5 {R : Type} (attempt : Nat → Option R) : Option R :=
  retryFrom attempt 0 5

/-- Result of the connection layer of one batch call: a response, or
`ConnectionError` after five connection-level failures. -/
inductive BatchNet (R : Type) where
  | ok (resp : R)
  | connectionFailure
deriving DecidableEq, Repr

/-- The connection layer of `download_batch` (lines 146-154).  `issue req
i` is the outcome of issuing request `req` on attempt `i` (`none` = a
`V20ConnectionError`/`V20Timeout`).  The `kwargs` dictionary is built
once before the loop (lines 129-144), so every attempt re-issues the
identical request `req` by construction. -/
def download_batch_net {R : Type} (issue : Request → Nat → Option R) (req : Request) : BatchNet R :=
  match retry5 (issue req) with
  | some resp => .ok resp
  | none => .connectionFailure

/-- `time_crop_fraction` (lines 44-55): `re.sub('\..*', '', time)` removes
everything from the first `.` on, e.g. `"2019-02-20T09:00:00.000000000Z"`
becomes `"2019-02-20T09:00:00"`. -/
def time_crop_fraction (s : String) : String :=
  (s.toList.takeWhile fun c => decide (c ≠ '.')).asString

/-- Split a character list at every occurrence of `sep` (the `str.split`
shape `strptime`'s fixed-layout formats impose). -/
def splitOnChar (sep : Char) : List Char → List (List Char)
  | [] => [[]]
  | c :: cs =>
    if c = sep then [] :: splitOnChar sep cs
    else
      match splitOnChar sep cs with
      | [] => [[c]]
      | g :: gs => (c :: g) :: gs

/-- Numeric value of a decimal digit string. -/
def digitsToNat (l : List Char) : Nat :=
  l.foldl (fun a c => 10 * a + (c.toNat - 48)) 0

/-- A non-empty all-digit character list. -/
def isDigits (l : List Char) : Bool :=
  !l.isEmpty && l.all fun c => c.isDigit

/-- Parse a non-empty decimal digit string. -/
def parseNatChars? (l : List Char) : Option Nat :=
  if isDigits l then some (digitsToNat l) else none

/-- Gregorian leap year. -/
def isLeap (y : Nat) : Bool :=
  y % 4 == 0 && (y % 100 != 0 || y % 400 == 0)

/-- Days in a month (the day-of-month validation `strptime`/`datetime`
perform). -/
def daysInMonth (y m : Nat) : Nat :=
  if m = 2 then (if isLeap y then 29 else 28)
  else if m = 4 ∨ m = 6 ∨ m = 9 ∨ m = 11 then 30
  else 31

/-- Days since 1970-01-01 of a Gregorian civil date (proleptic Gregorian
calendar, the computation `datetime.timestamp()` performs for a naive
datetime under a UTC local timezone). -/
def daysFromCivil (y m d : Nat) : Int :=
  let y' : Int := if m ≤ 2 then (y : Int) - 1 else (y : Int)
  let mp : Int := if m ≤ 2 then (m : Int) + 9 else (m : Int) - 3
  let era : Int := y' / 400
  let yoe : Int := y' - era * 400
  let doy : Int := (153 * mp + 2) / 5 + (d : Int) - 1
  let doe : Int := yoe * 365 + yoe / 4 - yoe / 100 + doy
  era * 146097 + doe - 719468

/-- UNIX time of a civil date-time taken as UTC. -/
def civilToUnix (y m d h mi s : Nat) : Int :=
  daysFromCivil y m d * 86400 + (h : Int) * 3600 + (mi : Int) * 60 + (s : Int)

/-- Parse `%Y-%m-%d` with range validation. -/
def parseDateChars? (l : List Char) : Option (Nat × Nat × Nat) :=
  match splitOnChar '-' l with
  | [ys, ms, ds] =>
    match parseNatChars? ys, parseNatChars? ms, parseNatChars? ds with
    | some y, some m, some d =>
      if 1 ≤ m ∧ m ≤ 12 ∧ 1 ≤ d ∧ d ≤ daysInMonth y m then some (y, m, d) else none
    | _, _, _ => none
  | _ => none

/-- Parse `%H:%M:%S` with range validation. -/
def parseTimeChars? (l : List Char) : Option (Nat × Nat × Nat) :=
  match splitOnChar ':' l with
  | [hs, ms, ss] =>
    match parseNatChars? hs, parseNatChars? ms, parseNatChars? ss with
    | some h, some mi, some s =>
      if h ≤ 23 ∧ mi ≤ 59 ∧ s ≤ 59 then some (h, mi, s) else none
    | _, _, _ => none
  | _ => none

/-- Parse `%Y-%m-%dT%H:%M:%S` (the first `strptime` attempt, line 69). -/
def parseDateTimeChars? (l : List Char) : Option Int :=
  match splitOnChar 'T' l with
  | [datePart, timePart] =>
    match parseDateChars? datePart, parseTimeChars? timePart with
    | some (y, m, d), some (h, mi, s) => some (civilToUnix y m d h mi s)
    | _, _ => none
  | _ => none

/-- Python `int(...)` on a decimal string with an optional sign (the last
resort at line 74); `none` models the uncaught `ValueError`. -/
def pyIntChars? (l : List Char) : Option Int :=
  if l.head? = some '-' then (parseNatChars? l.tail).map fun n => -(Int.ofNat n)
  else if l.head? = some '+' then (parseNatChars? l.tail).map fun n => Int.ofNat n
  else (parseNatChars? l).map fun n => Int.ofNat n

/-- `time_to_unix` (lines 58-77): try `%Y-%m-%dT%H:%M:%S`, then
`%Y-%m-%d` (midnight of that date), then `int(time)`.  Naive datetimes
are interpreted in UTC (the reference timezone for the spec's example
values).  `none` models an uncaught `ValueError` from the final
`int(...)`. -/
def time_to_unix (s : String) : Option Int :=
  match parseDateTimeChars? s.toList with
  | some t => some t
  | none =>
    match parseDateChars? s.toList with
    | some (y, m, d) => some (civilToUnix y m d 0 0 0)
    | none => pyIntChars? s.toList

/-- A strictly increasing candle history with timestamps `1, 2, ..., n`
(used to instantiate the pagination theorems at concrete inputs). -/
def candleSeq (n : Nat) : List Candle :=
  (List.range n).map fun i => ⟨i + 1, 1⟩

/-- A batch fetcher whose single available candle sits exactly at the
requested end time `5`: the bounded first attempt reports the batch as
too large, the paginated call returns that one candle.  Feeding it to
`download` drives `progress_bar` with `start = current = end = 5`. -/
def fetchAtEnd (r : Request) : Except FetchErr (List Candle) :=
  match r.count with
  | none => .error .maxCount
  | some _ => if r.fromTime < 5 then .ok [⟨5, 1⟩] else .ok []

/-! ## Basic facts about the embedded operations -/

theorem mem_afterRecords {data : List Candle} {t : Nat} {c : Candle} :
    c ∈ afterRecords data t ↔ c ∈ data ∧ t < c.time := by
  simp [afterRecords]

theorem pairwise_afterRecords {data : List Candle} (hs : List.Pairwise timeLt data) (t : Nat) :
    List.Pairwise timeLt (afterRecords data t) :=
  List.Pairwise.sublist (List.filter_sublist data) hs

theorem spanRecords_eq_filter (data : List Candle) (t T : Nat) :
    spanRecords data t T = (afterRecords data t).filter fun c => decide (c.time ≤ T) := by
  simp only [spanRecords, afterRecords, List.filter_filter]
  exact List.filter_congr fun c _ => by
    by_cases h1 : t < c.time <;> by_cases h2 : c.time ≤ T <;> simp [h1, h2]

theorem time_le_getLast {l : List Candle} (h : l ≠ []) (hp : List.Pairwise timeLt l) :
    ∀ c ∈ l, c.time ≤ (l.getLast h).time := by
  intro c hc
  have hp' := hp
  rw [← List.dropLast_append_getLast h] at hp' hc
  rcases List.mem_append.mp hc with h1 | h1
  · exact le_of_lt ((List.pairwise_append.mp hp').2.2 c h1 (l.getLast h) (by simp))
  · rw [List.mem_singleton.mp h1]

theorem take_head {α : Type} {l : List α} {n : Nat} {b0 : α} {bs : List α}
    (hB : l.take n = b0 :: bs) : l.head? = some b0 := by
  cases l with
  | nil => simp at hB
  | cons a l' =>
    cases n with
    | zero => simp at hB
    | succ n =>
      rw [List.take_succ_cons] at hB
      injection hB with h1 h2
      rw [List.head?_cons, h1]

theorem afterRecords_getLast_drop {data : List Candle} (hs : List.Pairwise timeLt data)
    {t n : Nat} {b0 : Candle} {bs : List Candle}
    (hB : (afterRecords data t).take n = b0 :: bs) :
    afterRecords data (((b0 :: bs).getLast (List.cons_ne_nil b0 bs)).time)
      = (afterRecords data t).drop n := by
  set R := afterRecords data t with hR
  set L := (b0 :: bs).getLast (List.cons_ne_nil b0 bs) with hL
  have hRs : List.Pairwise timeLt R := pairwise_afterRecords hs t
  have hLB : L ∈ b0 :: bs := List.getLast_mem _
  have hLR : L ∈ R := List.take_subset n R (hB ▸ hLB)
  have hLt : t < L.time := (mem_afterRecords.mp hLR).2
  have hsplit : R = (b0 :: bs) ++ R.drop n := by
    rw [← hB, List.take_append_drop]
  have hpapp : List.Pairwise timeLt ((b0 :: bs) ++ R.drop n) := by
    rw [← hsplit]; exact hRs
  have hcross := (List.pairwise_append.mp hpapp).2.2
  have htake : List.Pairwise timeLt (b0 :: bs) := (List.pairwise_append.mp hpapp).1
  have h1 : afterRecords data L.time = R.filter fun c => decide (L.time < c.time) := by
    rw [hR]
    simp only [afterRecords, List.filter_filter]
    exact List.filter_congr fun c _ => by
      by_cases hc : L.time < c.time
      · simp [hc, lt_trans hLt hc]
      · simp [hc]
  have h2 : (b0 :: bs).filter (fun c => decide (L.time < c.time)) = [] := by
    rw [List.filter_eq_nil_iff]
    intro a ha
    simp only [decide_eq_true_eq, not_lt]
    exact time_le_getLast (List.cons_ne_nil b0 bs) htake a ha
  have h3 : (R.drop n).filter (fun c => decide (L.time < c.time)) = R.drop n := by
    rw [List.filter_eq_self]
    intro a ha
    simp only [decide_eq_true_eq]
    exact hcross L hLB a ha
  rw [h1]
  conv_lhs => rw [hsplit]
  rw [List.filter_append, h2, h3, List.nil_append]

theorem pairwise_filter_le_eq_takeWhile (T : Nat) :
    ∀ l : List Candle, List.Pairwise timeLt l →
      l.filter (fun c => decide (c.time ≤ T)) = l.takeWhile fun c => decide (c.time ≤ T) := by
  intro l
  induction l with
  | nil => intro _; rfl
  | cons a l ih =>
    intro hp
    rcases List.pairwise_cons.mp hp with ⟨ha, hl⟩
    by_cases hA : a.time ≤ T
    · simp [List.filter_cons, List.takeWhile_cons, hA, ih hl]
    · simp only [List.filter_cons, List.takeWhile_cons, hA, decide_False, Bool.false_eq_true,
        if_false]
      rw [List.filter_eq_nil_iff]
      intro b hb
      have hab : a.time < b.time := ha b hb
      simp only [decide_eq_true_eq]
      omega

theorem takeWhile_take {α : Type} (p : α → Bool) :
    ∀ (l : List α) (n : Nat), (l.take n).takeWhile p = (l.takeWhile p).take n := by
  intro l
  induction l with
  | nil => intro n; simp
  | cons a l ih =>
    intro n
    cases n with
    | zero => simp
    | succ n =>
      rw [List.take_succ_cons, List.takeWhile_cons, List.takeWhile_cons]
      by_cases hp : p a
      · simp [hp, List.take_succ_cons, ih n]
      · simp [hp]

theorem paginate_err {fetch : Request → Except FetchErr (List Candle)} {to_time : Option Nat}
    {es : Option Nat} {ft fuel : Nat} {e : FetchErr}
    (hfetch : fetch ⟨ft, none, some MAX_API_CANDLES⟩ = .error e) :
    paginate fetch to_time es ft (fuel + 1)
      = some ⟨.error e, [⟨ft, none, some MAX_API_CANDLES⟩], []⟩ := by
  simp only [paginate]
  rw [hfetch]

theorem paginate_nil {fetch : Request → Except FetchErr (List Candle)} {to_time : Option Nat}
    {es : Option Nat} {ft fuel : Nat}
    (hfetch : fetch ⟨ft, none, some MAX_API_CANDLES⟩ = .ok []) :
    paginate fetch to_time es ft (fuel + 1)
      = some ⟨.ok [], [⟨ft, none, some MAX_API_CANDLES⟩], []⟩ := by
  simp only [paginate]
  rw [hfetch]

theorem paginate_cons_le {fetch : Request → Except FetchErr (List Candle)} {T : Nat}
    {es : Option Nat} {ft fuel : Nat} {b0 : Candle} {bs : List Candle}
    (hfetch : fetch ⟨ft, none, some MAX_API_CANDLES⟩ = .ok (b0 :: bs))
    (hLT : ((b0 :: bs).getLast (List.cons_ne_nil b0 bs)).time ≤ T) :
    paginate fetch (some T) es ft (fuel + 1)
      = (paginate fetch (some T) (some (es.getD b0.time))
            ((b0 :: bs).getLast (List.cons_ne_nil b0 bs)).time fuel).map
          fun r =>
            ⟨mapOk ((b0 :: bs) ++ ·) r.outcome,
             ⟨ft, none, some MAX_API_CANDLES⟩ :: r.calls,
             (es.getD b0.time, ((b0 :: bs).getLast (List.cons_ne_nil b0 bs)).time, some T)
               :: r.renders⟩ := by
  simp only [paginate]
  rw [hfetch]
  dsimp only
  rw [if_pos hLT]
  cases paginate fetch (some T) (some (es.getD b0.time))
      ((b0 :: bs).getLast (List.cons_ne_nil b0 bs)).time fuel <;> rfl

theorem paginate_cons_gt {fetch : Request → Except FetchErr (List Candle)} {T : Nat}
    {es : Option Nat} {ft fuel : Nat} {b0 : Candle} {bs : List Candle}
    (hfetch : fetch ⟨ft, none, some MAX_API_CANDLES⟩ = .ok (b0 :: bs))
    (hLT : ¬ ((b0 :: bs).getLast (List.cons_ne_nil b0 bs)).time ≤ T) :
    paginate fetch (some T) es ft (fuel + 1)
      = some ⟨.ok ((b0 :: bs).takeWhile fun c => decide (c.time ≤ T)),
              [⟨ft, none, some MAX_API_CANDLES⟩], []⟩ := by
  simp only [paginate]
  rw [hfetch]
  dsimp only
  rw [if_neg hLT]

/-- Core invariant of the pagination loop against the honest server: with
enough fuel it returns exactly the candles of the half-open window
`(from_time, T]`, and every progress-bar call it makes uses the fixed
effective start (the first candle ever received), the requested end `T`,
and a current time between the two. -/
theorem paginate_fetchOf_spec (data : List Candle) (T : Nat) (hs : List.Pairwise timeLt data) :
    ∀ (fuel from_time : Nat) (effStart : Option Nat),
      (afterRecords data from_time).length < fuel →
      (∀ s, effStart = some s → s ≤ from_time) →
      ∃ calls rends,
        paginate (fetchOf data) (some T) effStart from_time fuel
          = some ⟨.ok (spanRecords data from_time T), calls, rends⟩
        ∧ ∀ x ∈ rends,
            x.1 = effStart.getD (headTimeD data from_time)
            ∧ x.2.2 = some T ∧ x.1 ≤ x.2.1 ∧ x.2.1 ≤ T := by
  intro fuel
  induction fuel with
  | zero => intro ft es h _; omega
  | succ fuel ih =>
    intro ft es hfuel hes
    have hfetch : fetchOf data ⟨ft, none, some MAX_API_CANDLES⟩
        = .ok ((afterRecords data ft).take MAX_API_CANDLES) := by
      simp [fetchOf]
    cases hB : (afterRecords data ft).take MAX_API_CANDLES with
    | nil =>
      have hRnil : afterRecords data ft = [] := by
        rcases List.take_eq_nil_iff.mp hB with h | h
        · exact absurd h (by decide)
        · exact h
      have hspan : spanRecords data ft T = [] := by
        rw [spanRecords_eq_filter, hRnil]; rfl
      refine ⟨[⟨ft, none, some MAX_API_CANDLES⟩], [], ?_, by simp⟩
      rw [paginate_nil (hB ▸ hfetch), hspan]
    | cons b0 bs =>
      have hsplit : afterRecords data ft
          = (b0 :: bs) ++ (afterRecords data ft).drop MAX_API_CANDLES := by
        rw [← hB, List.take_append_drop]
      have hpw : List.Pairwise timeLt
          ((b0 :: bs) ++ (afterRecords data ft).drop MAX_API_CANDLES) := by
        rw [← hsplit]; exact pairwise_afterRecords hs ft
      have htake_pw : List.Pairwise timeLt (b0 :: bs) := (List.pairwise_append.mp hpw).1
      have hLB : (b0 :: bs).getLast (List.cons_ne_nil b0 bs) ∈ b0 :: bs := List.getLast_mem _
      have hLR : (b0 :: bs).getLast (List.cons_ne_nil b0 bs) ∈ afterRecords data ft := by
        refine List.take_subset MAX_API_CANDLES _ ?_
        rw [hB]
        exact hLB
      have hftL : ft < ((b0 :: bs).getLast (List.cons_ne_nil b0 bs)).time :=
        (mem_afterRecords.mp hLR).2
      have hb0L : b0.time ≤ ((b0 :: bs).getLast (List.cons_ne_nil b0 bs)).time :=
        time_le_getLast _ htake_pw b0 (by simp)
      have hstep : afterRecords data ((b0 :: bs).getLast (List.cons_ne_nil b0 bs)).time
          = (afterRecords data ft).drop MAX_API_CANDLES :=
        afterRecords_getLast_drop hs hB
      have hhead : headTimeD data ft = b0.time := by
        rw [headTimeD, take_head hB]; rfl
      by_cases hLT : ((b0 :: bs).getLast (List.cons_ne_nil b0 bs)).time ≤ T
      · -- whole batch within range: append and continue
        have hfuel' :
            (afterRecords data ((b0 :: bs).getLast (List.cons_ne_nil b0 bs)).time).length
              < fuel := by
          rw [hstep, List.length_drop]
          have hlen : 1 ≤ (afterRecords data ft).length := by
            rw [hsplit]; simp
          have hM : 1 ≤ MAX_API_CANDLES := by decide
          omega
        have hes' : ∀ s, some (es.getD b0.time) = some s →
            s ≤ ((b0 :: bs).getLast (List.cons_ne_nil b0 bs)).time := by
          intro s hs'
          injection hs' with hs'
          subst hs'
          cases es with
          | none => simpa using hb0L
          | some v =>
            have hv := hes v rfl
            simp only [Option.getD_some]
            omega
        obtain ⟨calls', rends', hrec, hrends⟩ :=
          ih ((b0 :: bs).getLast (List.cons_ne_nil b0 bs)).time (some (es.getD b0.time))
            hfuel' hes'
        have hspan : spanRecords data ft T
            = (b0 :: bs)
              ++ spanRecords data ((b0 :: bs).getLast (List.cons_ne_nil b0 bs)).time T := by
          rw [spanRecords_eq_filter, spanRecords_eq_filter, hstep]
          conv_lhs => rw [hsplit]
          rw [List.filter_append]
          congr 1
          rw [List.filter_eq_self]
          intro a ha
          simp only [decide_eq_true_eq]
          exact le_trans (time_le_getLast _ htake_pw a ha) hLT
        refine ⟨⟨ft, none, some MAX_API_CANDLES⟩ :: calls',
          (es.getD b0.time, ((b0 :: bs).getLast (List.cons_ne_nil b0 bs)).time, some T)
            :: rends', ?_, ?_⟩
        · rw [paginate_cons_le (hB ▸ hfetch) hLT, hrec, Option.map_some', hspan]
          rfl
        · intro x hx
          rcases List.mem_cons.mp hx with hx | hx
          · subst hx
            refine ⟨?_, rfl, ?_, hLT⟩
            · cases es with
              | none => simp [hhead]
              | some v => rfl
            · cases es with
              | none => simpa using hb0L
              | some v =>
                have hv := hes v rfl
                simp only [Option.getD_some]
                omega
          · obtain ⟨hx1, hx2, hx3, hx4⟩ := hrends x hx
            refine ⟨?_, hx2, hx3, hx4⟩
            rw [hx1]
            cases es with
            | none => simp [hhead]
            | some v => rfl
      · -- batch overruns the end time: truncate and stop
        have hspan : spanRecords data ft T
            = (b0 :: bs).takeWhile fun c => decide (c.time ≤ T) := by
          have hRfil : spanRecords data ft T
              = (afterRecords data ft).takeWhile fun c => decide (c.time ≤ T) := by
            rw [spanRecords_eq_filter]
            exact pairwise_filter_le_eq_takeWhile T _ (pairwise_afterRecords hs ft)
          have hlt : ((afterRecords data ft).takeWhile fun c => decide (c.time ≤ T)).length
              < MAX_API_CANDLES := by
            by_contra hge
            push_neg at hge
            have htk : (afterRecords data ft).take MAX_API_CANDLES
                = ((afterRecords data ft).takeWhile fun c => decide (c.time ≤ T)).take
                    MAX_API_CANDLES := by
              conv_lhs =>
                rw [← List.takeWhile_append_dropWhile (p := fun c => decide (c.time ≤ T))
                    (l := afterRecords data ft)]
              rw [List.take_append_of_le_length hge]
            have hmem : (b0 :: bs).getLast (List.cons_ne_nil b0 bs)
                ∈ (afterRecords data ft).takeWhile fun c => decide (c.time ≤ T) := by
              have : (b0 :: bs).getLast (List.cons_ne_nil b0 bs)
                  ∈ (afterRecords data ft).take MAX_API_CANDLES := by
                rw [hB]
                exact hLB
              rw [htk] at this
              exact List.take_subset _ _ this
            have := List.mem_takeWhile_imp hmem
            simp only [decide_eq_true_eq] at this
            exact hLT this
          calc spanRecords data ft T
              = (afterRecords data ft).takeWhile (fun c => decide (c.time ≤ T)) := hRfil
            _ = ((afterRecords data ft).takeWhile (fun c => decide (c.time ≤ T))).take
                  MAX_API_CANDLES := (List.take_of_length_le (le_of_lt hlt)).symm
            _ = ((afterRecords data ft).take MAX_API_CANDLES).takeWhile
                  (fun c => decide (c.time ≤ T)) := (takeWhile_take _ _ _).symm
            _ = (b0 :: bs).takeWhile (fun c => decide (c.time ≤ T)) := by rw [hB]
        refine ⟨[⟨ft, none, some MAX_API_CANDLES⟩], [], ?_, by simp⟩
        rw [paginate_cons_gt (hB ▸ hfetch) hLT, hspan]

theorem download_first_ok {fetch : Request → Except FetchErr (List Candle)}
    {ft : Nat} {tt : Option Nat} {fuel : Nat} {records : List Candle}
    (h : fetch ⟨ft, tt, none⟩ = .ok records) :
    download fetch ft tt fuel = some ⟨.ok records, [⟨ft, tt, none⟩], []⟩ := by
  simp only [download]
  rw [h]

theorem download_first_maxcount {fetch : Request → Except FetchErr (List Candle)}
    {ft : Nat} {tt : Option Nat} {fuel : Nat}
    (h : fetch ⟨ft, tt, none⟩ = .error .maxCount) :
    download fetch ft tt fuel
      = (paginate fetch tt none ft fuel).map
          fun r => ⟨r.outcome, ⟨ft, tt, none⟩ :: r.calls, r.renders⟩ := by
  simp only [download]
  rw [h]
  cases paginate fetch tt none ft fuel <;> rfl

theorem download_first_err {fetch : Request → Except FetchErr (List Candle)}
    {ft : Nat} {tt : Option Nat} {fuel : Nat} {e : FetchErr}
    (h : fetch ⟨ft, tt, none⟩ = .error e) (hne : e ≠ .maxCount) :
    download fetch ft tt fuel = some ⟨.error e, [⟨ft, tt, none⟩], []⟩ := by
  simp only [download]
  rw [h]
  cases e with
  | maxCount => exact absurd rfl hne
  | api m => rfl
  | conn => rfl

theorem specPaginationRecords_eq_span (data : List Candle) (t T : Nat) :
    specPaginationRecords data t T = spanRecords data t T := by
  rw [specPaginationRecords, spanRecords_eq_filter]

/-! ## C1: pagination refines the hypothetical unbounded fetch -/

/-- C1.  For every span that requires pagination (the bounded first
attempt reports "too many candles", i.e. the window holds more than
`MAX_API_CANDLES` candles), the accumulated result of the Range
Downloader — the concatenation of all batches, truncated at `to_time` —
equals the record sequence of a single hypothetical unbounded open-left
fetch restricted to timestamps at most `to_time` (which starts at the
earliest available candle when the requested start predates all data):
batch windows are open on the left and `from_time` advances to the last
received candle's timestamp, so batches neither duplicate nor skip
candles at the boundaries. -/
theorem download_paginated_refines (data : List Candle) (from_time T fuel : Nat)
    (hs : List.Pairwise timeLt data)
    (hbig : MAX_API_CANDLES < (spanRecords data from_time T).length)
    (hfuel : (afterRecords data from_time).length < fuel) :
    (download (fetchOf data) from_time (some T) fuel).map DlResult.outcome
      = some (.ok (specPaginationRecords data from_time T)) := by
  have hfetch0 : fetchOf data ⟨from_time, some T, none⟩ = .error .maxCount := by
    simp [fetchOf, hbig]
  obtain ⟨calls, rends, hpag, _⟩ :=
    paginate_fetchOf_spec data T hs fuel from_time none hfuel (by simp)
  rw [download_first_maxcount hfetch0, hpag, Option.map_some', Option.map_some',
    specPaginationRecords_eq_span]

theorem pairwise_candleSeq (n : Nat) : List.Pairwise timeLt (candleSeq n) := by
  rw [candleSeq, List.pairwise_map]
  exact (List.pairwise_lt_range n).imp fun h => by simpa [timeLt] using Nat.succ_lt_succ h

theorem afterRecords_candleSeq (n : Nat) : afterRecords (candleSeq n) 0 = candleSeq n := by
  rw [afterRecords, List.filter_eq_self]
  intro a ha
  obtain ⟨i, hi, rfl⟩ := List.mem_map.mp ha
  simp

theorem spanRecords_candleSeq (n : Nat) : spanRecords (candleSeq n) 0 n = candleSeq n := by
  rw [spanRecords, List.filter_eq_self]
  intro a ha
  obtain ⟨i, hi, rfl⟩ := List.mem_map.mp ha
  rw [List.mem_range] at hi
  simp
  omega

theorem length_candleSeq (n : Nat) : (candleSeq n).length = n := by
  simp [candleSeq]

/-- Witness for C1: a 5001-candle history over the window `(0, 5001]`
needs pagination, and the paginated download returns exactly the
restricted unbounded fetch. -/
theorem download_paginated_refines_witness :
    List.Pairwise timeLt (candleSeq 5001)
    ∧ MAX_API_CANDLES < (spanRecords (candleSeq 5001) 0 5001).length
    ∧ (afterRecords (candleSeq 5001) 0).length < 5002
    ∧ (download (fetchOf (candleSeq 5001)) 0 (some 5001) 5002).map DlResult.outcome
        = some (.ok (specPaginationRecords (candleSeq 5001) 0 5001)) := by
  have h1 := pairwise_candleSeq 5001
  have h2 : MAX_API_CANDLES < (spanRecords (candleSeq 5001) 0 5001).length := by
    rw [spanRecords_candleSeq, length_candleSeq]
    decide
  have h3 : (afterRecords (candleSeq 5001) 0).length < 5002 := by
    rw [afterRecords_candleSeq, length_candleSeq]
    decide
  exact ⟨h1, h2, h3, download_paginated_refines (candleSeq 5001) 0 5001 5002 h1 h2 h3⟩

/-! ## C2: the end-time boundary is never exceeded -/

theorem paginate_ok_le (data : List Candle) (T : Nat) (hs : List.Pairwise timeLt data) :
    ∀ (fuel ft : Nat) (es : Option Nat) (r : DlResult) (candles : List Candle),
      paginate (fetchOf data) (some T) es ft fuel = some r →
      r.outcome = .ok candles →
      ∀ c ∈ candles, c.time ≤ T := by
  intro fuel
  induction fuel with
  | zero =>
    intro ft es r candles h
    simp [paginate] at h
  | succ fuel ih =>
    intro ft es r candles hr hok c hc
    have hfetch : fetchOf data ⟨ft, none, some MAX_API_CANDLES⟩
        = .ok ((afterRecords data ft).take MAX_API_CANDLES) := by
      simp [fetchOf]
    cases hB : (afterRecords data ft).take MAX_API_CANDLES with
    | nil =>
      have hfetch' : fetchOf data ⟨ft, none, some MAX_API_CANDLES⟩ = .ok [] := by
        rw [hfetch, hB]
      rw [paginate_nil hfetch'] at hr
      injection hr with hr
      subst hr
      simp only at hok
      injection hok with hok
      subst hok
      simp at hc
    | cons b0 bs =>
      have hfetch' : fetchOf data ⟨ft, none, some MAX_API_CANDLES⟩ = .ok (b0 :: bs) := by
        rw [hfetch, hB]
      have htake_pw : List.Pairwise timeLt (b0 :: bs) := by
        have h := List.Pairwise.sublist (List.take_sublist MAX_API_CANDLES _)
          (pairwise_afterRecords hs ft)
        rwa [hB] at h
      by_cases hLT : ((b0 :: bs).getLast (List.cons_ne_nil b0 bs)).time ≤ T
      · rw [paginate_cons_le hfetch' hLT] at hr
        cases hrec : paginate (fetchOf data) (some T) (some (es.getD b0.time))
            ((b0 :: bs).getLast (List.cons_ne_nil b0 bs)).time fuel with
        | none => rw [hrec] at hr; simp at hr
        | some r' =>
          rw [hrec, Option.map_some'] at hr
          injection hr with hr
          subst hr
          simp only at hok
          cases hout : r'.outcome with
          | error e => rw [hout] at hok; simp [mapOk] at hok
          | ok l =>
            rw [hout] at hok
            simp only [mapOk] at hok
            injection hok with hok
            subst hok
            rcases List.mem_append.mp hc with hcb | hcl
            · exact le_trans (time_le_getLast _ htake_pw c hcb) hLT
            · exact ih _ _ r' l hrec hout c hcl
      · rw [paginate_cons_gt hfetch' hLT] at hr
        injection hr with hr
        subst hr
        simp only at hok
        injection hok with hok
        subst hok
        have := List.mem_takeWhile_imp hc
        simpa using this

/-- C2.  Whenever an end time is given and the download returns a result
(single-batch or paginated against a time-sorted history), no candle in
the returned Download Result has a timestamp exceeding that end time: an
overrunning batch is truncated to the candles with timestamp at most
`to_time` and the loop stops. -/
theorem download_respects_end_time (data : List Candle) (from_time T fuel : Nat)
    (r : DlResult) (candles : List Candle)
    (hs : List.Pairwise timeLt data)
    (hr : download (fetchOf data) from_time (some T) fuel = some r)
    (hok : r.outcome = .ok candles) :
    ∀ c ∈ candles, c.time ≤ T := by
  by_cases hbig : MAX_API_CANDLES < (spanRecords data from_time T).length
  · have hfetch0 : fetchOf data ⟨from_time, some T, none⟩ = .error .maxCount := by
      simp [fetchOf, hbig]
    rw [download_first_maxcount hfetch0] at hr
    cases hpag : paginate (fetchOf data) (some T) none from_time fuel with
    | none => rw [hpag] at hr; simp at hr
    | some r' =>
      rw [hpag, Option.map_some'] at hr
      injection hr with hr
      subst hr
      simp only at hok
      exact paginate_ok_le data T hs fuel from_time none r' candles hpag hok
  · have hfetch0 : fetchOf data ⟨from_time, some T, none⟩
        = .ok (spanRecords data from_time T) := by
      simp [fetchOf, hbig]
    rw [download_first_ok hfetch0] at hr
    injection hr with hr
    subst hr
    simp only at hok
    injection hok with hok
    subst hok
    intro c hc
    simp only [spanRecords, List.mem_filter, decide_eq_true_eq] at hc
    exact hc.2.2

/-- Witness for C2 at a concrete two-candle history with end time `2`. -/
theorem download_respects_end_time_witness :
    List.Pairwise timeLt [(⟨1, 1⟩ : Candle), ⟨2, 1⟩]
    ∧ download (fetchOf [⟨1, 1⟩, ⟨2, 1⟩]) 0 (some 2) 1
        = some ⟨.ok [⟨1, 1⟩, ⟨2, 1⟩], [⟨0, some 2, none⟩], []⟩
    ∧ (⟨2, 1⟩ : Candle).time ≤ 2 := by
  have h1 : List.Pairwise timeLt [(⟨1, 1⟩ : Candle), ⟨2, 1⟩] := by
    simp [timeLt]
  have h2 : download (fetchOf [(⟨1, 1⟩ : Candle), ⟨2, 1⟩]) 0 (some 2) 1
      = some ⟨.ok [⟨1, 1⟩, ⟨2, 1⟩], [⟨0, some 2, none⟩], []⟩ := rfl
  refine ⟨h1, h2, ?_⟩
  exact download_respects_end_time [⟨1, 1⟩, ⟨2, 1⟩] 0 2 1 _ _ h1 h2 rfl ⟨2, 1⟩ (by simp)

/-! ## C3: the single-batch fast path -/

/-- C3.  When the whole span fits in one batch (the first bounded attempt
does not report "too many candles"), `download` issues exactly one batch
call — the original request, unmutated — returns that call's record
sequence unmodified, performs no truncation and renders no progress. -/
theorem download_single_batch_exact (data : List Candle) (from_time T fuel : Nat)
    (hfit : (spanRecords data from_time T).length ≤ MAX_API_CANDLES) :
    download (fetchOf data) from_time (some T) fuel
      = some ⟨.ok (spanRecords data from_time T), [⟨from_time, some T, none⟩], []⟩ := by
  have hfetch0 : fetchOf data ⟨from_time, some T, none⟩
      = .ok (spanRecords data from_time T) := by
    simp [fetchOf, not_lt.mpr hfit]
  exact download_first_ok hfetch0

/-- Witness for C3: a one-candle history, returned by a single call. -/
theorem download_single_batch_exact_witness :
    (spanRecords [(⟨1, 1⟩ : Candle)] 0 5).length ≤ MAX_API_CANDLES
    ∧ download (fetchOf [⟨1, 1⟩]) 0 (some 5) 7
        = some ⟨.ok (spanRecords [⟨1, 1⟩] 0 5), [⟨0, some 5, none⟩], []⟩ := by
  refine ⟨by decide, ?_⟩
  exact download_single_batch_exact [⟨1, 1⟩] 0 5 7 (by decide)

/-! ## C4: failure paths at the top level -/

/-- Counterexample for C4 as stated: a batch fetcher that keeps reporting
"too many candles" makes `MaxCountError` recur inside the pagination
loop; no `except` clause of `__main__` matches it, so the run ends
`unhandled` — the top level does not print a message and return
normally. -/
theorem main_recurring_maxcount_unhandled_cex :
    mainModel (fun _ => Except.error FetchErr.maxCount) 0 100 5
      = some MainResult.unhandled := rfl

/-- C4 (amended).  Failure paths the top level handles (`APIError`,
`ConnectionError`, and likewise the I/O, config and interrupt handlers)
print one message and return normally with exit code 0; but when
`BatchTooLarge` (`MaxCountError`) recurs during pagination and escapes
`download`, no handler catches it and the exception propagates unhandled
out of the program. -/
theorem main_top_level_error_reporting
    (fetch : Request → Except FetchErr (List Candle))
    (from_time T fuel : Nat) (r : DlResult) (e : FetchErr)
    (hr : download fetch from_time (some T) fuel = some r)
    (he : r.outcome = .error e) :
    mainModel fetch from_time T fuel
      = some (if e = FetchErr.maxCount then MainResult.unhandled
              else MainResult.printed (errMsg e)) := by
  rw [mainModel, hr, Option.map_some']
  cases e with
  | maxCount => simp [mainStep, he]
  | api m => simp [mainStep, he, errMsg]
  | conn => simp [mainStep, he, errMsg]

/-- Witness for C4's amended theorem: a fetcher whose very first call
fails with `APIError` leads to the printed message, not a write. -/
theorem main_top_level_error_reporting_witness :
    download (fun _ => Except.error (FetchErr.api "x")) 0 (some 100) 5
      = some ⟨.error (FetchErr.api "x"), [⟨0, some 100, none⟩], []⟩
    ∧ mainModel (fun _ => Except.error (FetchErr.api "x")) 0 100 5
        = some (MainResult.printed "API error occured: x") := by
  refine ⟨rfl, ?_⟩
  have h := main_top_level_error_reporting (fun _ => Except.error (FetchErr.api "x"))
    0 100 5 ⟨.error (FetchErr.api "x"), [⟨0, some 100, none⟩], []⟩ (FetchErr.api "x") rfl rfl
  simpa [errMsg] using h

/-! ## C7: connection/API failures abort the download with no file -/

/-- C7.  If any batch call raises `ConnectionError` or `APIError`, the
error propagates out of `download` (the accumulated in-memory result is
discarded with it), the top level prints the corresponding single
message, and the output file is never written. -/
theorem download_error_aborts
    (fetch : Request → Except FetchErr (List Candle))
    (from_time T fuel : Nat) (r : DlResult) (e : FetchErr)
    (hr : download fetch from_time (some T) fuel = some r)
    (he : r.outcome = .error e)
    (hne : e ≠ FetchErr.maxCount) :
    mainModel fetch from_time T fuel = some (MainResult.printed (errMsg e))
    ∧ (mainModel fetch from_time T fuel).bind writtenCandles = none := by
  have hmain : mainModel fetch from_time T fuel
      = some (MainResult.printed (errMsg e)) := by
    rw [mainModel, hr, Option.map_some']
    cases e with
    | maxCount => exact absurd rfl hne
    | api m => simp [mainStep, he]
    | conn => simp [mainStep, he]
  refine ⟨hmain, ?_⟩
  rw [hmain]
  rfl

/-- Witness for C7: five-failure connection abort — the printed message
and no written file. -/
theorem download_error_aborts_witness :
    download (fun _ => Except.error FetchErr.conn) 0 (some 9) 3
      = some ⟨.error FetchErr.conn, [⟨0, some 9, none⟩], []⟩
    ∧ mainModel (fun _ => Except.error FetchErr.conn) 0 9 3
        = some (MainResult.printed (errMsg FetchErr.conn))
    ∧ (mainModel (fun _ => Except.error FetchErr.conn) 0 9 3).bind writtenCandles = none := by
  refine ⟨rfl, ?_, ?_⟩
  · exact (download_error_aborts (fun _ => Except.error FetchErr.conn) 0 9 3
      ⟨.error FetchErr.conn, [⟨0, some 9, none⟩], []⟩ FetchErr.conn rfl rfl (by decide)).1
  · exact (download_error_aborts (fun _ => Except.error FetchErr.conn) 0 9 3
      ⟨.error FetchErr.conn, [⟨0, some 9, none⟩], []⟩ FetchErr.conn rfl rfl (by decide)).2

/-! ## C8: the empty-result path -/

/-- C8.  When the requested range yields zero candles the download
returns an empty result and `write` evaluates `candles[0]`, raising
`IndexError`; the top level only handles `KeyError`, which does not
catch `IndexError`, so instead of the friendly "No results." message the
run dies with an unhandled exception. -/
theorem main_empty_result_unhandled :
    (download (fetchOf []) 0 (some 100) 1).map DlResult.outcome = some (.ok [])
    ∧ mainModel (fetchOf []) 0 100 1 = some MainResult.unhandled := ⟨rfl, rfl⟩

/-! ## C6: the connection retry policy -/

theorem retryFrom_none_iff {R : Type} (f : Nat → Option R) :
    ∀ (k i : Nat), retryFrom f i k = none ↔ ∀ j, j < k → f (i + j) = none := by
  intro k
  induction k with
  | zero => intro i; simp [retryFrom]
  | succ k ih =>
    intro i
    constructor
    · intro h j hj
      cases hf : f i with
      | some r => simp [retryFrom, hf] at h
      | none =>
        simp only [retryFrom, hf] at h
        cases j with
        | zero => simpa using hf
        | succ j =>
          have hh := (ih (i + 1)).mp h j (by omega)
          rw [show i + (j + 1) = i + 1 + j by omega]
          exact hh
    · intro h
      cases hf : f i with
      | some r =>
        have h0 := h 0 (by omega)
        rw [Nat.add_zero, hf] at h0
        cases h0
      | none =>
        simp only [retryFrom, hf]
        exact (ih (i + 1)).mpr fun j hj => by
          rw [show i + 1 + j = i + (j + 1) by omega]
          exact h (j + 1) (by omega)

theorem retryFrom_first {R : Type} (f : Nat → Option R) :
    ∀ (k i j : Nat) (r : R), j < k → f (i + j) = some r →
      (∀ j', j' < j → f (i + j') = none) → retryFrom f i k = some r := by
  intro k
  induction k with
  | zero => intro i j r hj; omega
  | succ k ih =>
    intro i j r hj hf hprev
    cases j with
    | zero =>
      rw [Nat.add_zero] at hf
      simp only [retryFrom, hf]
    | succ j =>
      have h0 : f i = none := by
        have hh := hprev 0 (by omega)
        rwa [Nat.add_zero] at hh
      simp only [retryFrom, h0]
      refine ih (i + 1) j r (by omega) ?_ ?_
      · rw [show i + 1 + j = i + (j + 1) by omega]
        exact hf
      · intro j' hj'
        rw [show i + 1 + j' = i + (j' + 1) by omega]
        exact hprev (j' + 1) (by omega)

theorem retryFrom_congr {R : Type} (f g : Nat → Option R) :
    ∀ (k i : Nat), (∀ j, j < k → f (i + j) = g (i + j)) →
      retryFrom f i k = retryFrom g i k := by
  intro k
  induction k with
  | zero => intro i _; rfl
  | succ k ih =>
    intro i h
    have h0 : f i = g i := by
      have hh := h 0 (by omega)
      rwa [Nat.add_zero] at hh
    cases hgi : g i with
    | some r => simp only [retryFrom, h0, hgi]
    | none =>
      simp only [retryFrom, h0, hgi]
      exact ih (i + 1) fun j hj => by
        rw [show i + 1 + j = i + (j + 1) by omega]
        exact h (j + 1) (by omega)

/-- C6.  The connection layer of a batch call re-issues the identical
request (the `kwargs` are built once, before the loop): it fails with
`ConnectionError` if and only if all five attempts fail at the
connection level; the first successful attempt's response is the one
used; and the outcome depends on at most the first five attempts. -/
theorem download_batch_retry_policy {R : Type} (issue : Request → Nat → Option R)
    (req : Request) :
    (download_batch_net issue req = BatchNet.connectionFailure
      ↔ ∀ i, i < 5 → issue req i = none)
    ∧ (∀ k resp, k < 5 → issue req k = some resp →
        (∀ j, j < k → issue req j = none) →
        download_batch_net issue req = BatchNet.ok resp)
    ∧ ∀ issue2 : Request → Nat → Option R,
        (∀ i, i < 5 → issue req i = issue2 req i) →
        download_batch_net issue req = download_batch_net issue2 req := by
  refine ⟨?_, ?_, ?_⟩
  · constructor
    · intro h
      cases hret : retryFrom (issue req) 0 5 with
      | some r => simp [download_batch_net, retry5, hret] at h
      | none =>
        intro i hi
        have hh := (retryFrom_none_iff (issue req) 5 0).mp hret i hi
        rwa [Nat.zero_add] at hh
    · intro h
      have hnone : retryFrom (issue req) 0 5 = none :=
        (retryFrom_none_iff (issue req) 5 0).mpr fun j hj => by
          rw [Nat.zero_add]
          exact h j hj
      simp [download_batch_net, retry5, hnone]
  · intro k resp hk hresp hprev
    have hsome : retryFrom (issue req) 0 5 = some resp := by
      refine retryFrom_first (issue req) 5 0 k resp hk ?_ ?_
      · rwa [Nat.zero_add]
      · intro j' hj'
        rw [Nat.zero_add]
        exact hprev j' hj'
    simp [download_batch_net, retry5, hsome]
  · intro issue2 h
    have hc : retryFrom (issue req) 0 5 = retryFrom (issue2 req) 0 5 :=
      retryFrom_congr _ _ 5 0 fun j hj => by
        rw [Nat.zero_add]
        exact h j hj
    rw [download_batch_net, download_batch_net, retry5, retry5, hc]

/-- Witness for C6: two connection failures followed by a success on the
third attempt yield that response. -/
theorem download_batch_retry_policy_witness :
    download_batch_net (fun _ i => if i = 2 then some 42 else none)
      ⟨0, none, some MAX_API_CANDLES⟩ = BatchNet.ok 42 := by
  exact (download_batch_retry_policy (fun _ i => if i = 2 then some (42 : Nat) else none)
    ⟨0, none, some MAX_API_CANDLES⟩).2.1 2 42 (by decide) rfl
    (fun j hj => by interval_cases j <;> rfl)

/-! ## C5: time normalization -/

theorem splitOnChar_eq_single {sep : Char} :
    ∀ l : List Char, (∀ c ∈ l, c ≠ sep) → splitOnChar sep l = [l] := by
  intro l
  induction l with
  | nil => intro _; rfl
  | cons c cs ih =>
    intro h
    have hc : c ≠ sep := h c (by simp)
    simp only [splitOnChar, if_neg hc, ih fun a ha => h a (by simp [ha])]

/-- C5.  The time normalization of the program maps the RFC3339 string
`"2019-02-20T09:00:00.000000000Z"` (after `time_crop_fraction` strips
the fractional part, as `download` does for every candle timestamp) to
`1550653200`, maps the bare date `"2019-02-20"` to the UNIX time of that
date's midnight, and passes a bare digit string through unchanged as its
integer value. -/
theorem time_normalization_values :
    time_to_unix (time_crop_fraction "2019-02-20T09:00:00.000000000Z") = some 1550653200
    ∧ time_to_unix "2019-02-20" = some 1550620800
    ∧ ∀ s : String, isDigits s.toList = true →
        time_to_unix s = some (Int.ofNat (digitsToNat s.toList)) := by
  refine ⟨by decide, by decide, ?_⟩
  intro s hd
  have hparts : s.toList ≠ [] ∧ ∀ c ∈ s.toList, c.isDigit = true := by
    rw [isDigits, Bool.and_eq_true] at hd
    refine ⟨by simpa using hd.1, ?_⟩
    intro c hc
    exact List.all_eq_true.mp hd.2 c hc
  have hnoT : ∀ c ∈ s.toList, c ≠ 'T' := by
    intro c hc he
    have hdig := hparts.2 c hc
    rw [he] at hdig
    exact absurd hdig (by decide)
  have hnoD : ∀ c ∈ s.toList, c ≠ '-' := by
    intro c hc he
    have hdig := hparts.2 c hc
    rw [he] at hdig
    exact absurd hdig (by decide)
  have hdt : parseDateTimeChars? s.toList = none := by
    unfold parseDateTimeChars?
    rw [splitOnChar_eq_single s.toList hnoT]
  have hdate : parseDateChars? s.toList = none := by
    unfold parseDateChars?
    rw [splitOnChar_eq_single s.toList hnoD]
  have hpy : pyIntChars? s.toList = some (Int.ofNat (digitsToNat s.toList)) := by
    cases hl : s.toList with
    | nil => exact absurd hl hparts.1
    | cons c cs =>
      have hcd : c.isDigit = true := hparts.2 c (by rw [hl]; simp)
      have hcm : c ≠ '-' := hnoD c (by rw [hl]; simp)
      have hcp : c ≠ '+' := by
        intro he
        rw [he] at hcd
        exact absurd hcd (by decide)
      have hd' : isDigits (c :: cs) = true := by
        rw [← hl]
        exact hd
      rw [pyIntChars?, if_neg (by simp [hcm]), if_neg (by simp [hcp]),
        parseNatChars?, if_pos hd', Option.map_some']
  rw [time_to_unix, hdt, hdate, hpy]

/-- Witness for C5: the bare integer string `"1549886400"` passes
through unchanged. -/
theorem time_normalization_values_witness :
    isDigits ("1549886400").toList = true
    ∧ time_to_unix "1549886400" = some (Int.ofNat (digitsToNat ("1549886400").toList)) :=
  ⟨by decide, time_normalization_values.2.2 "1549886400" (by decide)⟩

/-! ## C9: progress-bar semantics during pagination -/

theorem head_time_lt (data : List Candle) (from_time T : Nat) (c0 : Candle)
    (hs : List.Pairwise timeLt data)
    (hbig : MAX_API_CANDLES < (spanRecords data from_time T).length)
    (hhead : (afterRecords data from_time).head? = some c0) :
    c0.time < T := by
  obtain ⟨rest, hR⟩ := List.head?_eq_some_iff.mp hhead
  have hspan := spanRecords_eq_filter data from_time T
  have hRpw : List.Pairwise timeLt (afterRecords data from_time) :=
    pairwise_afterRecords hs from_time
  rw [hR] at hRpw hspan
  rcases List.pairwise_cons.mp hRpw with ⟨hc0, hrest⟩
  by_cases hc0T : c0.time ≤ T
  · have hfc : (c0 :: rest).filter (fun c => decide (c.time ≤ T))
        = c0 :: rest.filter (fun c => decide (c.time ≤ T)) := by
      simp [List.filter_cons, hc0T]
    rw [hfc] at hspan
    have hlen : 1 ≤ (rest.filter (fun c => decide (c.time ≤ T))).length := by
      rw [hspan] at hbig
      simp only [List.length_cons] at hbig
      unfold MAX_API_CANDLES at hbig
      omega
    have hne : rest.filter (fun c => decide (c.time ≤ T)) ≠ [] := by
      intro h
      rw [h] at hlen
      simp at hlen
    obtain ⟨b, hb⟩ := List.exists_mem_of_ne_nil _ hne
    have hbmem := List.mem_filter.mp hb
    have hbT : b.time ≤ T := by simpa using hbmem.2
    exact lt_of_lt_of_le (hc0 b hbmem.1) hbT
  · have hnil : spanRecords data from_time T = [] := by
      rw [hspan, List.filter_eq_nil_iff]
      intro a ha
      rcases List.mem_cons.mp ha with rfl | ha
      · simpa using hc0T
      · have := hc0 a ha
        rw [timeLt] at this
        simp only [decide_eq_true_eq]
        omega
    rw [hnil] at hbig
    simp at hbig

/-- C9.  During pagination every progress render uses, as the bar's
start, the timestamp of the very first candle ever received (fixed on
the first batch) and, as the end, the requested end time; every rendered
percentage equals `(current - start) / (end - start) * 100` and is
non-negative, and at the first received candle itself the percentage is
exactly 0% — never negative, even when the requested start predates all
available data. -/
theorem pagination_progress_semantics (data : List Candle) (from_time T fuel : Nat)
    (c0 : Candle)
    (hs : List.Pairwise timeLt data)
    (hbig : MAX_API_CANDLES < (spanRecords data from_time T).length)
    (hfuel : (afterRecords data from_time).length < fuel)
    (hhead : (afterRecords data from_time).head? = some c0) :
    (∀ r, download (fetchOf data) from_time (some T) fuel = some r →
       ∀ x ∈ r.renders,
         x.1 = c0.time ∧ x.2.2 = some T
         ∧ ∃ p : ℚ, progressPercentage x.1 x.2.1 T = some p ∧ 0 ≤ p)
    ∧ progressPercentage c0.time c0.time T = some 0 := by
  have hlt : c0.time < T := head_time_lt data from_time T c0 hs hbig hhead
  have hneI : ((T : Nat) : Int) ≠ ((c0.time : Nat) : Int) := by
    exact_mod_cast ne_of_gt hlt
  have hfetch0 : fetchOf data ⟨from_time, some T, none⟩ = .error .maxCount := by
    simp [fetchOf, hbig]
  obtain ⟨calls, rends, hpag, hrends⟩ :=
    paginate_fetchOf_spec data T hs fuel from_time none hfuel (by simp)
  constructor
  · intro r hr x hx
    rw [download_first_maxcount hfetch0, hpag, Option.map_some'] at hr
    injection hr with hr
    subst hr
    simp only at hx
    obtain ⟨hx1, hx2, hx3, hx4⟩ := hrends x hx
    have hx1' : x.1 = c0.time := by
      rw [hx1]
      simp [headTimeD, hhead]
    refine ⟨hx1', hx2, ?_⟩
    rw [hx1'] at hx3
    rw [hx1']
    rw [progressPercentage, if_neg hneI]
    refine ⟨_, rfl, ?_⟩
    have h1 : ((c0.time : Int) : ℚ) ≤ ((x.2.1 : Int) : ℚ) := by exact_mod_cast hx3
    have h2 : ((c0.time : Int) : ℚ) < ((T : Int) : ℚ) := by exact_mod_cast hlt
    have hq : 0 ≤ (((x.2.1 : Int) : ℚ) - ((c0.time : Int) : ℚ))
        / (((T : Int) : ℚ) - ((c0.time : Int) : ℚ)) :=
      div_nonneg (by linarith) (by linarith)
    exact mul_nonneg hq (by norm_num)
  · rw [progressPercentage, if_neg hneI]
    simp

theorem head_candleSeq (n : Nat) : (candleSeq (n + 1)).head? = some ⟨1, 1⟩ := by
  rw [candleSeq, List.range_succ_eq_map]
  rfl

/-- Witness for C9: at the 5001-candle paginated history, the effective
start is the first candle's timestamp `1` and the percentage there is
0%. -/
theorem pagination_progress_semantics_witness :
    (afterRecords (candleSeq 5001) 0).head? = some ⟨1, 1⟩
    ∧ progressPercentage ((⟨1, 1⟩ : Candle).time) ((⟨1, 1⟩ : Candle).time) 5001 = some 0 := by
  have h1 := pairwise_candleSeq 5001
  have h2 : MAX_API_CANDLES < (spanRecords (candleSeq 5001) 0 5001).length := by
    rw [spanRecords_candleSeq, length_candleSeq]
    decide
  have h3 : (afterRecords (candleSeq 5001) 0).length < 5002 := by
    rw [afterRecords_candleSeq, length_candleSeq]
    decide
  have h4 : (afterRecords (candleSeq 5001) 0).head? = some ⟨1, 1⟩ := by
    rw [afterRecords_candleSeq, show (5001 : Nat) = 5000 + 1 by norm_num]
    exact head_candleSeq 5000
  exact ⟨h4, (pagination_progress_semantics (candleSeq 5001) 0 5001 5002 ⟨1, 1⟩
    h1 h2 h3 h4).2⟩

/-! ## C10: the unguarded division in progress_bar -/

/-- C10.  `progress_bar` divides by `end - start` with no guard: every
call with `end = start` fails with a division-by-zero error instead of
producing a bar string.  Such a call is reachable in the downloader when
the first received candle's timestamp equals the requested end time: the
batch fetcher `fetchAtEnd` (too-large first attempt, then a single
candle exactly at the end time `5`) drives `download` to call
`progress_bar` with `start = current = end = 5`. -/
theorem progress_bar_zero_denominator :
    (∀ s c e : Int, e = s → progressPercentage s c e = none)
    ∧ (download fetchAtEnd 0 (some 5) 3).map DlResult.renders = some [(5, 5, some 5)] := by
  refine ⟨?_, rfl⟩
  intro s c e he
  rw [progressPercentage, if_pos he]

/-- Witness for C10: a concrete zero-width window. -/
theorem progress_bar_zero_denominator_witness :
    progressPercentage 7 9 7 = none :=
  progress_bar_zero_denominator.1 7 9 7 rfl
